import Mathlib

/-!
Verification of the timelapse-dl pipeline (`goprodl.py`).

The source is shallowly embedded: pure Python functions become Lean
functions; filesystem state becomes explicit maps `String → Option String`;
side-effecting stages become functions producing explicit event traces.
External collaborators (the camera's HTTP listing, the md5 of a file's
bytes, EXIF extraction, `uuid4`) are passed in as oracle parameters.
-/

namespace Goprodl

/-- A capture timestamp, as pulled from EXIF (`extract_exif_date`). -/
structure DateTime where
  year : Nat
  month : Nat
  day : Nat
  hour : Nat
  minute : Nat
  second : Nat
deriving DecidableEq, Repr

/-- Two-digit zero padding, as produced by `strftime` fields `%m %d %H %M %S`. -/
def pad2 (n : Nat) : String :=
  if n < 10 then "0" ++ toString n else toString n

/-- `dt.strftime('%Y-%m-%d')` (years of interest are four digits already). -/
def dateFolderStr (dt : DateTime) : String :=
  toString dt.year ++ "-" ++ pad2 dt.month ++ "-" ++ pad2 dt.day

/-- `dt.strftime('%Y-%m-%d_%H-%M-%S')`. -/
def dateTimeStr (dt : DateTime) : String :=
  dateFolderStr dt ++ "_" ++ pad2 dt.hour ++ "-" ++ pad2 dt.minute ++ "-" ++ pad2 dt.second

/-- `datetime_to_datetimestr` (goprodl.py:308): the pair of strftime strings. -/
def datetime_to_datetimestr (dt : DateTime) : String × String :=
  (dateFolderStr dt, dateTimeStr dt)

/-- Split a character list at its LAST dot, returning (before, dot-and-after);
`none` when there is no dot.  Helper for `splitext`. -/
def splitLastDot : List Char → Option (List Char × List Char)
  | [] => none
  | c :: rest =>
    match splitLastDot rest with
    | some (b, e) => some (c :: b, e)
    | none => if c = '.' then some ([], c :: rest) else none

/-- Python `os.path.splitext` restricted to bare filenames (no directory
separators, which is how `generate_relative_image_path` uses it): split at the
last dot unless every character before that dot is itself a dot
(so `.bashrc` keeps its dot in the root part). -/
def splitext (s : String) : String × String :=
  match splitLastDot s.data with
  | some (b, e) => if b.all (· = '.') then (s, "") else (⟨b⟩, ⟨e⟩)
  | none => (s, "")

/-- `md5(fname, dryrun)` (goprodl.py:59): the dryrun short-circuit is in the
source; the actual digest of the file's bytes is the oracle `md5fn`. -/
def md5 (md5fn : String → String) (fname : String) (dryrun : Bool) : String :=
  if dryrun then "DRYRUN-MD5" else md5fn fname

/-- Python slicing `s[1:]` (character based). -/
def sliceFrom1 (s : String) : String :=
  String.mk (s.data.drop 1)

/-- `generate_relative_image_path` (goprodl.py:312): strips the extension from
`source_filename`, formats the capture timestamp, hashes `source_file`, and
joins `{YYYY-MM-DD}/{YYYY-MM-DD_HH-MM-SS}.{basename}.{resolution}.{md5}.{ext}`. -/
def generate_relative_image_path (md5fn : String → String) (source_file source_filename : String)
    (shot_at : DateTime) (resolution : String) (dryrun : Bool) : String :=
  let se := splitext source_filename
  let extension := sliceFrom1 se.2
  let ds := datetime_to_datetimestr shot_at
  let md5sum := md5 md5fn source_file dryrun
  let new_filename := String.intercalate "." [ds.2, se.1, resolution, md5sum, extension]
  ds.1 ++ "/" ++ new_filename

/-- A flat filesystem: path ↦ file content (`none` = no file there). -/
abbrev FS := String → Option String

/-- Write (or overwrite) the file at `p` with content `v`. -/
def fsSet (fs : FS) (p v : String) : FS :=
  fun q => if q = p then some v else fs q

/-- `os.remove p`. -/
def fsRemove (fs : FS) (p : String) : FS :=
  fun q => if q = p then none else fs q

/-- The empty filesystem. -/
def fsEmpty : FS := fun _ => none

/-- The characters after the last `'/'` (the whole list when there is none). -/
def afterLastSlash : List Char → List Char → List Char
  | acc, [] => acc.reverse
  | acc, c :: rest =>
    if c = '/' then afterLastSlash [] rest else afterLastSlash (c :: acc) rest

/-- `url.split('/')[-1]`. -/
def urlFilename (url : String) : String :=
  String.mk (afterLastSlash [] url.data)

/-- Outcome of streaming one HTTP transfer (the oracle for `requests.get` +
the chunk loop): the full body on success, or whatever bytes had been written
to the temp file when the exception fired. -/
inductive Transfer where
  | success (body : String)
  | failure (bodySoFar : String)
deriving DecidableEq, Repr

/-- Whether the transfer completed. -/
def Transfer.isSuccess : Transfer → Bool
  | .success _ => true
  | .failure _ => false

/-- Result of one `download` call: filesystem afterwards, camera-delete calls
issued, and the returned path. -/
structure DownloadResult where
  fs : FS
  deletes : List String
  ret : String

/-- Temporary path used by `download`: `.partial-download.{uuid}.{filename}`
(goprodl.py:166). -/
def tmpDownloadPath (target_dir uuid fn : String) : String :=
  target_dir ++ "/" ++ ".partial-download." ++ uuid ++ "." ++ fn

/-- Final staging path used by `download` (goprodl.py:170). -/
def dlPath (target_dir url : String) : String :=
  target_dir ++ "/" ++ urlFilename url

/-- `download` (goprodl.py:164): stream the body into a uuid-randomised temp
name; on an exception remove the temp file and fall through; on success move
the temp file onto the final staging name and, when `delete_after_download`,
delete the camera copy.  Either way the final staging path is returned. -/
def download (uuid url target_dir : String) (delete_after_download : Bool)
    (t : Transfer) (fs : FS) : DownloadResult :=
  let image_filename := urlFilename url
  let target_path_tmp := tmpDownloadPath target_dir uuid image_filename
  let target_path_dl := target_dir ++ "/" ++ image_filename
  match t with
  | .failure body =>
    let fs1 := fsSet fs target_path_tmp body
    { fs := fsRemove fs1 target_path_tmp, deletes := [], ret := target_path_dl }
  | .success body =>
    let fs1 := fsSet fs target_path_tmp body
    let fs2 := fsSet (fsRemove fs1 target_path_tmp) target_path_dl body
    { fs := fs2,
      deletes := if delete_after_download then [url] else [],
      ret := target_path_dl }

/-- Progress-marker path `{progress_dir}/{fn[0:3]}/{fn[3:6]}/{fn}.json`
(goprodl.py:125). -/
def progressPath (progress_dir fn : String) : String :=
  progress_dir ++ "/" ++ fn.take 3 ++ "/" ++ (fn.drop 3).take 3 ++ "/" ++ fn ++ ".json"

/-- Python truthiness of `limit and count > limit` (goprodl.py:157): `None`
and `0` are both falsy. -/
def limitReached : Option Nat → Nat → Bool
  | none, _ => false
  | some n, count => n != 0 && decide (count > n)

/-- Configuration and oracles for one `download_all_images` run. -/
structure DLConfig where
  target_dir : String
  progress_dir : String
  skip_existing : Bool
  delete_after_download : Bool
  limit : Option Nat
  transfers : String → Transfer
  uuids : Nat → String

/-- Observable state threaded through `download_all_images`: the staging
filesystem, the progress tree, the camera-delete calls issued, the urls that
took the download path, the urls skipped via an existing marker, and the
marker files written during this run. -/
structure DLState where
  fs : FS
  markers : FS
  deletes : List String
  attempted : List String
  skipped : List String
  markersWritten : List String

/-- The per-image loop of `download_all_images` (goprodl.py:123-161): skip when
the progress marker exists (deleting the camera copy unless this is the
newest-listed image), otherwise download (deleting on success unless newest),
write the marker only if a file exists at the returned path, and stop once
`count` passes the limit. -/
def download_all_go (cfg : DLConfig) : List String → Nat → Bool → DLState → DLState
  | [], _, _, st => st
  | url :: rest, count, is_first, st =>
    let fn := urlFilename url
    let ppath := progressPath cfg.progress_dir fn
    if cfg.skip_existing && (st.markers ppath).isSome then
      let st1 := { st with skipped := st.skipped ++ [url] }
      let st2 := if cfg.delete_after_download && !is_first
        then { st1 with deletes := st1.deletes ++ [url] }
        else st1
      download_all_go cfg rest count false st2
    else
      let real_delete := cfg.delete_after_download && !is_first
      let r := download (cfg.uuids st.attempted.length) url cfg.target_dir real_delete
        (cfg.transfers url) st.fs
      let count1 := count + 1
      let st1 := { st with fs := r.fs, deletes := st.deletes ++ r.deletes,
                           attempted := st.attempted ++ [url] }
      let st2 := if (st1.fs r.ret).isSome
        then { st1 with markers := fsSet st1.markers ppath "",
                        markersWritten := st1.markersWritten ++ [ppath] }
        else st1
      if limitReached cfg.limit count1 then st2
      else download_all_go cfg rest count1 false st2

/-- `download_all_images` (goprodl.py:105): run the loop over the remote
listing with `count = 1` and `is_first = True`.  The directory creation and
the inter-image sleeps are not modelled; the connectivity check is taken to
pass (a failing check raises before anything observable happens). -/
def download_all_images (cfg : DLConfig) (images : List String) (fs markers : FS) : DLState :=
  download_all_go cfg images 1 true
    { fs := fs, markers := markers, deletes := [], attempted := [], skipped := [],
      markersWritten := [] }

/-- Concrete configuration for the delete-protection scenario: delete after
download, no limit, every transfer succeeds. -/
def cfgDelete : DLConfig :=
  { target_dir := "/data/raw-photos", progress_dir := "/data/download-progress",
    skip_existing := true, delete_after_download := true, limit := none,
    transfers := fun _ => .success "bytes", uuids := fun n => toString n }

/-- A concrete three-image newest-first listing. -/
def imgs3 : List String :=
  ["http://10.5.5.9/videos/DCIM/101GOPRO/G2.JPG",
   "http://10.5.5.9/videos/DCIM/101GOPRO/G1.JPG",
   "http://10.5.5.9/videos/DCIM/100GOPRO/G9.JPG"]

/-- Concrete configuration for the limit scenario: limit 1, every transfer
fails mid-stream. -/
def cfgLimitFail : DLConfig :=
  { target_dir := "/data/raw-photos", progress_dir := "/data/download-progress",
    skip_existing := true, delete_after_download := false, limit := some 1,
    transfers := fun _ => .failure "trunc", uuids := fun n => toString n }

/-- A concrete two-image newest-first listing. -/
def imgs2 : List String :=
  ["http://10.5.5.9/videos/DCIM/100GOPRO/G0010007.JPG",
   "http://10.5.5.9/videos/DCIM/100GOPRO/G0010006.JPG"]

/-- The characters strictly before the last `'/'` (empty when there is none),
i.e. `os.path.dirname` for plain slash-separated paths. -/
def beforeLastSlash : List Char → List Char
  | [] => []
  | c :: rest =>
    if '/' ∈ rest then c :: beforeLastSlash rest
    else []

/-- `os.path.dirname`. -/
def dirname (p : String) : String :=
  String.mk (beforeLastSlash p.data)

/-- Observable actions of the processing stages on their environment. -/
inductive FSEvent where
  | mkdtemp (dir : String)
  | rmtree (dir : String)
  | subproc (cmd : String)
  | mkdirs (dir : String)
  | move (src dst : String)
  | copyf (src dst : String)
  | echo (msg : String)
deriving DecidableEq, Repr

/-- Whether an event is a pure log line. -/
def FSEvent.isEcho : FSEvent → Bool
  | .echo _ => true
  | _ => false

/-- `resize_image` (goprodl.py:223) as its event trace: a `convert` subprocess
(or a dry-run log line), then optionally a `jpegoptim` subprocess (or its
dry-run log line).  Non-zero exit statuses raise; that abort path carries no
further events and is not distinguished here. -/
def resize_image (source_file target_file resolution : String) (optimise dryrun : Bool) :
    List FSEvent :=
  let cmd := "convert " ++ source_file ++ " -resize " ++ resolution ++ " " ++ target_file
  (if dryrun then [FSEvent.echo (" dryrun --> [" ++ resolution ++ "] " ++ cmd)]
   else [FSEvent.subproc cmd])
  ++ (if optimise then
        let cmd2 := "jpegoptim --strip-all " ++ target_file
        if dryrun then [FSEvent.echo (" dryrun --> [" ++ resolution ++ "] " ++ cmd2)]
        else [FSEvent.subproc cmd2]
      else [])

/-- One entry of the `imgs` ordered dict in `resize_images` (goprodl.py:274). -/
structure ResizeJob where
  source_file : String
  tmp_target_file : String
  resolution : String
deriving DecidableEq, Repr

/-- `imgs[resolution] = {...}` on a `collections.OrderedDict`: update in place
when the key exists, else append. -/
def odInsert (l : List (String × ResizeJob)) (k : String) (v : ResizeJob) :
    List (String × ResizeJob) :=
  if l.any (fun p => decide (p.1 = k)) then
    l.map (fun p => if p.1 = k then (k, v) else p)
  else l ++ [(k, v)]

/-- The plan-building first loop of `resize_images` (goprodl.py:266-278):
thread `next_res_source_file` through the resolutions, keying each job by its
resolution.  (The `first` flag in the source is set but never read.) -/
def buildPlan (tmpdir source_filename : String) :
    List (String × ResizeJob) → String → List String → List (String × ResizeJob)
  | acc, _, [] => acc
  | acc, cur, resolution :: rest =>
    let res_target_file := tmpdir ++ "/" ++ resolution ++ "-" ++ source_filename
    buildPlan tmpdir source_filename
      (odInsert acc resolution ⟨cur, res_target_file, resolution⟩) res_target_file rest

/-- Lexicographic code-point comparison, as Python compares strings. -/
def charListLt : List Char → List Char → Bool
  | [], [] => false
  | [], _ :: _ => true
  | _ :: _, [] => false
  | a :: as, b :: bs =>
    if a < b then true else if b < a then false else charListLt as bs

/-- `sorted(resolutions, reverse=True)`: stable descending string sort. -/
def sortedDesc (l : List String) : List String :=
  List.insertionSort (fun a b : String => charListLt b.data a.data = true) l

/-- The job list `resize_images` executes, in order: the values of the ordered
dict built over the descending-sorted resolutions, starting from the original
`source_file`. -/
def resizePlan (tmpdir source_file source_filename : String) (resolutions : List String) :
    List ResizeJob :=
  (buildPlan tmpdir source_filename [] source_file (sortedDesc resolutions)).map (fun kv => kv.2)

/-- The reference cascade: the first job reads `cur`, every later job reads
the previous job's temp target. -/
def chainJobs (tmpdir source_filename : String) : String → List String → List ResizeJob
  | _, [] => []
  | cur, resolution :: rest =>
    let tgt := tmpdir ++ "/" ++ resolution ++ "-" ++ source_filename
    ⟨cur, tgt, resolution⟩ :: chainJobs tmpdir source_filename tgt rest

/-- The resize loop of `resize_images` (goprodl.py:279-287) as a trace. -/
def resizeLoopEvents (optimise dryrun : Bool) (plan : List ResizeJob) : List FSEvent :=
  (plan.map (fun j =>
    resize_image j.source_file j.tmp_target_file j.resolution optimise dryrun)).flatten

/-- The move loop of `resize_images` (goprodl.py:288-305) as a trace: per job,
either a dry-run log line or `mkdirs` + `shutil.move` into the canonical
location. -/
def moveLoopEvents (md5fn : String → String) (target_dir source_filename : String)
    (shot_at : DateTime) (dryrun : Bool) (plan : List ResizeJob) : List FSEvent :=
  (plan.map (fun j =>
    let target_file := target_dir ++ "/" ++ j.resolution ++ "/"
      ++ generate_relative_image_path md5fn j.tmp_target_file source_filename shot_at
          j.resolution dryrun
    if dryrun then
      [FSEvent.echo (" dryrun --> [" ++ j.resolution ++ "] mv " ++ j.tmp_target_file
        ++ " to " ++ target_file)]
    else [FSEvent.mkdirs (dirname target_file),
          FSEvent.move j.tmp_target_file target_file])).flatten

/-- `resize_images` (goprodl.py:251): `tempfile.mkdtemp` on entry (the
`temporary_directory` context manager, goprodl.py:42), the cascading resize
loop, the move loop, and the guaranteed `shutil.rmtree` on exit.  The
connectivity check is taken to pass. -/
def resize_images (md5fn : String → String)
    (tmpdir source_file source_filename target_dir : String)
    (resolutions : List String) (shot_at : DateTime) (optimise dryrun : Bool) :
    List FSEvent :=
  let plan := resizePlan tmpdir source_file source_filename resolutions
  [FSEvent.mkdtemp tmpdir]
  ++ resizeLoopEvents optimise dryrun plan
  ++ moveLoopEvents md5fn target_dir source_filename shot_at dryrun plan
  ++ [FSEvent.rmtree tmpdir]

/-- `process_image` (goprodl.py:328) as a trace: derive the canonical
`original` path; when `skip_existing` and it exists, log and return; otherwise
optionally run the resize cascade, then `mkdirs` + copy/move the original into
place (or only log under `dryrun`).  `shot_at` stands for the pure EXIF read
`extract_exif_date`, and `exists_at` for `os.path.exists`. -/
def process_image (md5fn : String → String) (tmpdir source_file target_dir : String)
    (copy resize : Bool) (source_filename : String) (dryrun skip_existing : Bool)
    (exists_at : String → Bool) (shot_at : DateTime) : List FSEvent :=
  let new_path := target_dir ++ "/" ++ "original" ++ "/"
    ++ generate_relative_image_path md5fn source_file source_filename shot_at "original" dryrun
  [FSEvent.echo (" ==> handling " ++ source_file),
   FSEvent.echo " --> shot at"]
  ++ (if skip_existing && exists_at new_path then
        [FSEvent.echo (" !-> skipping " ++ source_filename
          ++ " because destination already exists")]
      else
        (if resize then
          FSEvent.echo " --> resizing to 640x480 320x240 160x120"
            :: resize_images md5fn tmpdir source_file source_filename target_dir
                ["640x480", "320x240", "160x120"] shot_at true dryrun
         else [])
        ++ (if dryrun then [FSEvent.echo " dryrun --> mv"]
            else FSEvent.mkdirs (dirname new_path)
              :: (if copy then [FSEvent.copyf source_file new_path]
                  else [FSEvent.move source_file new_path])))

/-- A directory entry as seen through `os.listdir` plus `os.path.isfile`. -/
structure DirEntry where
  name : String
  isFile : Bool
deriving DecidableEq, Repr

/-- Whether the name starts with `'.'`. -/
def startsWithDot (s : String) : Bool :=
  match s.data with
  | c :: _ => c == '.'
  | [] => false

/-- Python `str.lower`, character by character. -/
def pyLower (s : String) : String :=
  String.mk (s.data.map Char.toLower)

/-- Python `str.endswith`. -/
def pyEndsWith (s tail : String) : Bool :=
  decide (tail.data.length ≤ s.data.length)
    && decide (s.data.drop (s.data.length - tail.data.length) = tail.data)

/-- `_is_image` (goprodl.py:400): a regular file, not dot-prefixed, with a
`.jpg` extension case-insensitively. -/
def is_image (e : DirEntry) : Bool :=
  e.isFile && !(startsWithDot e.name) && pyEndsWith (pyLower e.name) ".jpg"

/-- Python `str.split('.')`. -/
def splitOnDot : List Char → List (List Char)
  | [] => [[]]
  | c :: rest =>
    let r := splitOnDot rest
    if c = '.' then [] :: r
    else (c :: r.headD []) :: r.tail

/-- `_extract_original_filename` (goprodl.py:409): drop the fixed-width
date-time decoration (20 characters), then keep the first and last
dot-separated pieces joined by a dot. -/
def extract_original_filename (filename : String) : String :=
  let f := filename.data.drop 20
  let pieces := splitOnDot f
  String.mk (pieces.headD [] ++ '.' :: pieces.getLastD [])

/-- `reprocess_daydir` (goprodl.py:435), abstracted to the `process_image`
calls it makes: a `none` listing models an absent directory.  Returns the
(filename, original_filename) pairs passed on, in order. -/
def reprocess_daydir (sourceListing : Option (List DirEntry))
    (destListing : Option (List DirEntry)) : List (String × String) :=
  match sourceListing with
  | none => []
  | some entries =>
    let source_filenames := (entries.filter is_image).map (fun e => e.name)
    let destination_filenames : List String :=
      match destListing with
      | some d => (d.filter is_image).map (fun e => e.name)
      | none => []
    if source_filenames.length = destination_filenames.length then []
    else
      let originals := destination_filenames.map extract_original_filename
      (source_filenames.filter
        (fun fn => !originals.contains (extract_original_filename fn))).map
        (fun fn => (fn, extract_original_filename fn))

/-- One observed poll iteration: the connectivity check result and whether the
wrapped stage function raises when invoked. -/
structure IterInput where
  connected : Bool
  stageRaises : Bool
deriving DecidableEq, Repr

/-- Observable actions of the poll loop (`download_loop` goprodl.py:502;
`process_loop` and `upload_loop` share the shape). -/
inductive LoopEvent where
  | checkFailLog
  | sleepMountFail
  | stageRun (raised : Bool)
  | errorLog
  | sleepStage
  | exitProcess
deriving DecidableEq, Repr

/-- One pass through the `while True` body (goprodl.py:507-524): gated state
logs and sleeps, running state invokes the stage, catches and logs any
exception, then sleeps; under `hard_exit` the pass ends with `exit(1)`.
The returned flag says whether the process terminated. -/
def loopStep (hard_exit : Bool) (inp : IterInput) : List LoopEvent × Bool :=
  if !inp.connected then
    ([LoopEvent.checkFailLog, LoopEvent.sleepMountFail]
      ++ (if hard_exit then [LoopEvent.exitProcess] else []), hard_exit)
  else
    ([LoopEvent.stageRun inp.stageRaises]
      ++ (if inp.stageRaises then [LoopEvent.errorLog] else [])
      ++ [LoopEvent.sleepStage]
      ++ (if hard_exit then [LoopEvent.exitProcess] else []), hard_exit)

/-- The poll loop driven by a stream of iteration inputs (the finite list
stands for an arbitrarily long observation of the infinite loop). -/
def loopRun (hard_exit : Bool) : List IterInput → List LoopEvent
  | [] => []
  | inp :: rest =>
    let step := loopStep hard_exit inp
    step.1 ++ (if step.2 then [] else loopRun hard_exit rest)

/-- If `e` contains no dot, the last dot of `bn ++ '.' :: e` is the displayed one. -/
theorem splitLastDot_append (bn e : List Char) (he : '.' ∉ e) :
    splitLastDot (bn ++ '.' :: e) = some (bn, '.' :: e) := by
  induction bn with
  | nil =>
    have hnone : splitLastDot e = none := by
      induction e with
      | nil => rfl
      | cons c cs ih =>
        have hc : c ≠ '.' := fun h => he (h ▸ List.mem_cons_self c cs)
        have hcs : '.' ∉ cs := fun h => he (List.mem_cons_of_mem c h)
        simp [splitLastDot, ih hcs, hc]
    simp [splitLastDot, hnone]
  | cons c cs ih =>
    simp [splitLastDot, ih]

/-- `splitext` of `basename ++ "." ++ ext` recovers the two parts when the
basename has a non-dot character and the extension has no dot. -/
theorem splitext_append (bn e : String) (hbn : ¬ bn.data.all (· = '.')) (he : '.' ∉ e.data) :
    splitext (bn ++ "." ++ e) = (bn, "." ++ e) := by
  have hdata : (bn ++ "." ++ e).data = bn.data ++ '.' :: e.data := by
    simp [String.data_append]
  rw [splitext, hdata, splitLastDot_append bn.data e.data he]
  rw [Bool.not_eq_true] at hbn
  simp only [hbn]
  rfl

/-- Dropping the leading dot of a dot-extension gives back the extension. -/
theorem sliceFrom1_dot (e : String) : sliceFrom1 ("." ++ e) = e := by
  show String.mk (("." ++ e).data.drop 1) = e
  have h : ("." ++ e).data = '.' :: e.data := by simp [String.data_append]
  rw [h]
  rfl

/-- C1: canonical naming is deterministic and matches the documented format:
for every capture timestamp, size label, hash oracle, extension and basename,
`generate_relative_image_path` computes the same string on every call, of the
form `{YYYY-MM-DD}/{YYYY-MM-DD_HH-MM-SS}.{basename}.{sizeLabel}.{md5hex}.{ext}`. -/
theorem canonical_naming_deterministic_and_formatted
    (md5fn : String → String) (src bn e res : String) (dt : DateTime)
    (hbn : ¬ bn.data.all (· = '.')) (he : '.' ∉ e.data) :
    generate_relative_image_path md5fn src (bn ++ "." ++ e) dt res false
      = generate_relative_image_path md5fn src (bn ++ "." ++ e) dt res false
    ∧ generate_relative_image_path md5fn src (bn ++ "." ++ e) dt res false
      = dateFolderStr dt ++ "/" ++ dateTimeStr dt ++ "." ++ bn ++ "." ++ res ++ "."
          ++ md5fn src ++ "." ++ e := by
  refine ⟨rfl, ?_⟩
  simp only [generate_relative_image_path, splitext_append bn e hbn he]
  show (datetime_to_datetimestr dt).1 ++ "/"
      ++ String.intercalate "." [(datetime_to_datetimestr dt).2, bn, res,
          md5 md5fn src false, sliceFrom1 ("." ++ e)] = _
  rw [sliceFrom1_dot]
  show dateFolderStr dt ++ "/" ++ (dateTimeStr dt ++ "." ++ bn ++ "." ++ res
      ++ "." ++ md5fn src ++ "." ++ e) = _
  simp only [String.append_assoc]

/-- C1 witness: the spec scenario, with the hash oracle returning `abc123`. -/
theorem canonical_naming_witness :
    generate_relative_image_path (fun _ => "abc123") "photo" ("IMG1" ++ "." ++ "jpg")
        ⟨2023, 5, 1, 10, 0, 0⟩ "640x480" false
      = "2023-05-01/2023-05-01_10-00-00.IMG1.640x480.abc123.jpg" := by
  have h := (canonical_naming_deterministic_and_formatted (fun _ => "abc123") "photo"
      "IMG1" "jpg" "640x480" ⟨2023, 5, 1, 10, 0, 0⟩ (by decide) (by decide)).2
  rw [h]
  rfl

/-- C3: atomic staging.  When the transfer raises mid-download, `download`
leaves no file at the final staging path (the rename never happens), removes
the temporary partial-download file, and issues no delete call. -/
theorem download_failure_atomic (uuid url target_dir body : String) (d : Bool) (fs : FS)
    (hfresh : fs (dlPath target_dir url) = none) :
    (download uuid url target_dir d (.failure body) fs).fs (dlPath target_dir url) = none
    ∧ (download uuid url target_dir d (.failure body) fs).fs
        (tmpDownloadPath target_dir uuid (urlFilename url)) = none
    ∧ (download uuid url target_dir d (.failure body) fs).deletes = [] := by
  refine ⟨?_, ?_, rfl⟩
  · show fsRemove (fsSet fs (tmpDownloadPath target_dir uuid (urlFilename url)) body)
        (tmpDownloadPath target_dir uuid (urlFilename url)) (dlPath target_dir url) = none
    by_cases h : dlPath target_dir url = tmpDownloadPath target_dir uuid (urlFilename url)
    · simp [fsRemove, h]
    · simp [fsRemove, fsSet, h, hfresh]
  · show fsRemove (fsSet fs (tmpDownloadPath target_dir uuid (urlFilename url)) body)
        (tmpDownloadPath target_dir uuid (urlFilename url))
        (tmpDownloadPath target_dir uuid (urlFilename url)) = none
    simp [fsRemove]

/-- C3 witness: a concrete failed transfer into an empty staging tree. -/
theorem download_failure_atomic_witness :
    (fsEmpty (dlPath "/data/raw-photos" "http://10.5.5.9/videos/DCIM/100GOPRO/G0010001.JPG") = none)
    ∧ (download "3f2b" "http://10.5.5.9/videos/DCIM/100GOPRO/G0010001.JPG" "/data/raw-photos"
        true (.failure "par") fsEmpty).fs
        (dlPath "/data/raw-photos" "http://10.5.5.9/videos/DCIM/100GOPRO/G0010001.JPG") = none
    ∧ (download "3f2b" "http://10.5.5.9/videos/DCIM/100GOPRO/G0010001.JPG" "/data/raw-photos"
        true (.failure "par") fsEmpty).fs
        (tmpDownloadPath "/data/raw-photos" "3f2b"
          (urlFilename "http://10.5.5.9/videos/DCIM/100GOPRO/G0010001.JPG")) = none :=
  ⟨rfl,
   (download_failure_atomic "3f2b" "http://10.5.5.9/videos/DCIM/100GOPRO/G0010001.JPG"
      "/data/raw-photos" "par" true fsEmpty rfl).1,
   (download_failure_atomic "3f2b" "http://10.5.5.9/videos/DCIM/100GOPRO/G0010001.JPG"
      "/data/raw-photos" "par" true fsEmpty rfl).2.1⟩

/-- When the requested delete flag is off, `download` issues no delete call,
whatever the transfer outcome. -/
theorem download_deletes_nil (uuid url target_dir : String) (t : Transfer) (fs : FS) :
    (download uuid url target_dir false t fs).deletes = [] := by
  cases t <;> simp [download]

/-- Once the newest image has passed (`is_first = false`), every remaining
image is deleted exactly once — on the skip path or on the download path. -/
theorem download_all_go_deletes_tail (cfg : DLConfig)
    (hdad : cfg.delete_after_download = true) (hlim : cfg.limit = none) :
    ∀ (urls : List String) (count : Nat) (st : DLState),
      (∀ u ∈ urls, (cfg.transfers u).isSuccess = true) →
      (download_all_go cfg urls count false st).deletes = st.deletes ++ urls := by
  intro urls
  induction urls with
  | nil => intro count st _; simp [download_all_go]
  | cons url rest ih =>
    intro count st hok
    have hokr : ∀ u ∈ rest, (cfg.transfers u).isSuccess = true :=
      fun u hu => hok u (List.mem_cons_of_mem _ hu)
    have hoku : (cfg.transfers url).isSuccess = true := hok url (List.mem_cons_self _ _)
    obtain ⟨body, hbody⟩ : ∃ b, cfg.transfers url = .success b := by
      cases h : cfg.transfers url with
      | success b => exact ⟨b, rfl⟩
      | failure b => rw [h] at hoku; simp [Transfer.isSuccess] at hoku
    rw [download_all_go]
    split
    · rw [ih count _ hokr]
      simp [hdad]
    · simp only [hbody, hlim, download, limitReached, hdad, Bool.not_false, Bool.and_self,
        Bool.false_eq_true, if_false]
      rw [ih (count + 1) _ hokr]
      split <;> simp

/-- C2: newest-image delete protection.  With `deleteAfterDownload` set, no
limit, and every transfer succeeding, a run over an N-image listing deletes
exactly the N-1 images after the newest-listed one (in order), so exactly N-1
delete calls are issued and the newest-listed image is never targeted —
whether images are skipped or downloaded. -/
theorem newest_image_delete_protection (cfg : DLConfig) (images : List String)
    (hdad : cfg.delete_after_download = true) (hlim : cfg.limit = none)
    (hok : ∀ u ∈ images, (cfg.transfers u).isSuccess = true)
    (hne : images ≠ []) (hnd : images.Nodup) (fs markers : FS) :
    (download_all_images cfg images fs markers).deletes = images.drop 1
    ∧ (download_all_images cfg images fs markers).deletes.length = images.length - 1
    ∧ images.headD "" ∉ (download_all_images cfg images fs markers).deletes := by
  obtain ⟨u, rest, rfl⟩ : ∃ u rest, images = u :: rest := by
    cases images with
    | nil => exact absurd rfl hne
    | cons a l => exact ⟨a, l, rfl⟩
  have hokr : ∀ v ∈ rest, (cfg.transfers v).isSuccess = true :=
    fun v hv => hok v (List.mem_cons_of_mem _ hv)
  have hmain : (download_all_images cfg (u :: rest) fs markers).deletes = rest := by
    unfold download_all_images
    rw [download_all_go]
    split
    · rw [download_all_go_deletes_tail cfg hdad hlim rest 1 _ hokr]
      simp
    · simp only [hlim, limitReached, Bool.not_true, Bool.and_false, Bool.false_eq_true, if_false]
      rw [download_all_go_deletes_tail cfg hdad hlim rest 2 _ hokr]
      split <;> simp [download_deletes_nil]
  refine ⟨hmain, ?_, ?_⟩
  · rw [hmain]; simp
  · rw [hmain]
    simp only [List.headD_cons]
    exact (List.nodup_cons.mp hnd).1

/-- C2 witness: a concrete three-image run with deletion enabled. -/
theorem newest_image_delete_protection_witness :
    imgs3 ≠ []
    ∧ (download_all_images cfgDelete imgs3 fsEmpty fsEmpty).deletes.length = imgs3.length - 1
    ∧ imgs3.headD "" ∉ (download_all_images cfgDelete imgs3 fsEmpty fsEmpty).deletes :=
  ⟨by decide,
   (newest_image_delete_protection cfgDelete imgs3 rfl rfl (by decide) (by decide) (by decide)
      fsEmpty fsEmpty).2.1,
   (newest_image_delete_protection cfgDelete imgs3 rfl rfl (by decide) (by decide) (by decide)
      fsEmpty fsEmpty).2.2⟩

/-- C10: `download` returns the final staging path on the success and the
failure branch alike; the caller writes the progress marker exactly when a
file exists at that returned path, so a failed transfer into a fresh staging
tree creates no progress marker while a successful one always does. -/
theorem download_return_path_marker_iff (cfg : DLConfig) (url : String) (fs markers : FS)
    (body : String)
    (hnomark : markers (progressPath cfg.progress_dir (urlFilename url)) = none) :
    (∀ (uuid target_dir : String) (d : Bool) (t : Transfer),
        (download uuid url target_dir d t fs).ret = dlPath target_dir url)
    ∧ (cfg.transfers url = .failure body →
        fs (dlPath cfg.target_dir url) = none →
        (download_all_images cfg [url] fs markers).markersWritten = [])
    ∧ (cfg.transfers url = .success body →
        (download_all_images cfg [url] fs markers).markersWritten
          = [progressPath cfg.progress_dir (urlFilename url)]) := by
  refine ⟨?_, ?_, ?_⟩
  · intro uuid target_dir d t
    cases t <;> rfl
  · intro ht hfresh
    have hfresh2 : fs (cfg.target_dir ++ "/" ++ urlFilename url) = none := hfresh
    unfold download_all_images
    rw [download_all_go]
    simp only [hnomark, Option.isSome_none, Bool.and_false, Bool.false_eq_true, if_false,
      ht, download]
    have hcond : ∀ uu : String,
        (fsRemove
          (fsSet fs (tmpDownloadPath cfg.target_dir uu (urlFilename url)) body)
          (tmpDownloadPath cfg.target_dir uu (urlFilename url))
          (cfg.target_dir ++ "/" ++ urlFilename url)).isSome = false := by
      intro uu
      by_cases h : (cfg.target_dir ++ "/" ++ urlFilename url)
          = tmpDownloadPath cfg.target_dir uu (urlFilename url)
      · simp [fsRemove, h]
      · simp [fsRemove, fsSet, h, hfresh2]
    simp only [hcond, Bool.false_eq_true, if_false]
    split <;> simp [download_all_go]
  · intro ht
    unfold download_all_images
    rw [download_all_go]
    simp only [hnomark, Option.isSome_none, Bool.and_false, Bool.false_eq_true, if_false,
      ht, download]
    simp only [fsSet, if_pos rfl, Option.isSome_some, if_true]
    split <;> simp [download_all_go]

/-- C10 witness: a concrete failed and a concrete successful single-image run. -/
theorem download_return_path_marker_iff_witness :
    (fsEmpty (progressPath cfgDelete.progress_dir
        (urlFilename "http://10.5.5.9/videos/DCIM/100GOPRO/G0010003.JPG")) = none)
    ∧ (download "u7" "http://10.5.5.9/videos/DCIM/100GOPRO/G0010003.JPG" "/data/raw-photos"
        false (.failure "xx") fsEmpty).ret
        = dlPath "/data/raw-photos" "http://10.5.5.9/videos/DCIM/100GOPRO/G0010003.JPG"
    ∧ (download_all_images cfgDelete ["http://10.5.5.9/videos/DCIM/100GOPRO/G0010003.JPG"]
        fsEmpty fsEmpty).markersWritten
        = [progressPath cfgDelete.progress_dir
            (urlFilename "http://10.5.5.9/videos/DCIM/100GOPRO/G0010003.JPG")] :=
  ⟨rfl,
   (download_return_path_marker_iff cfgDelete "http://10.5.5.9/videos/DCIM/100GOPRO/G0010003.JPG"
      fsEmpty fsEmpty "bytes" rfl).1 "u7" "/data/raw-photos" false (.failure "xx"),
   (download_return_path_marker_iff cfgDelete "http://10.5.5.9/videos/DCIM/100GOPRO/G0010003.JPG"
      fsEmpty fsEmpty "bytes" rfl).2.2 rfl⟩

/-- C6 counterexample: with `limit = 1` and a transfer that fails mid-stream,
the run stops (the second listed image is never reached, neither attempted nor
skipped) although zero images were actually downloaded — the failed attempt
consumed the limit. -/
theorem download_limit_counterexample :
    (download_all_images cfgLimitFail imgs2 fsEmpty fsEmpty).markersWritten.length = 0
    ∧ (download_all_images cfgLimitFail imgs2 fsEmpty fsEmpty).attempted
        = ["http://10.5.5.9/videos/DCIM/100GOPRO/G0010007.JPG"]
    ∧ (download_all_images cfgLimitFail imgs2 fsEmpty fsEmpty).skipped = [] := by
  refine ⟨?_, ?_, ?_⟩ <;> rfl

/-- Elements already in `attempted` stay there. -/
theorem download_all_go_mem_attempted (cfg : DLConfig) :
    ∀ (urls : List String) (count : Nat) (b : Bool) (st : DLState) (x : String),
      x ∈ st.attempted → x ∈ (download_all_go cfg urls count b st).attempted := by
  intro urls
  induction urls with
  | nil => intro count b st x hx; simpa [download_all_go] using hx
  | cons url rest ih =>
    intro count b st x hx
    rw [download_all_go]
    split
    · apply ih
      split <;> exact hx
    · dsimp only
      split
      · split <;> exact List.mem_append_left _ hx
      · apply ih
        split <;> exact List.mem_append_left _ hx

/-- Elements already in `skipped` stay there. -/
theorem download_all_go_mem_skipped (cfg : DLConfig) :
    ∀ (urls : List String) (count : Nat) (b : Bool) (st : DLState) (x : String),
      x ∈ st.skipped → x ∈ (download_all_go cfg urls count b st).skipped := by
  intro urls
  induction urls with
  | nil => intro count b st x hx; simpa [download_all_go] using hx
  | cons url rest ih =>
    intro count b st x hx
    rw [download_all_go]
    split
    · apply ih
      split <;> exact List.mem_append_left _ hx
    · dsimp only
      split
      · split <;> exact hx
      · apply ih
        split <;> exact hx

/-- Reading the limit test (goprodl.py:157) for a positive limit. -/
theorem limitReached_some (N c : Nat) (hN : 0 < N) :
    limitReached (some N) c = true ↔ c > N := by
  simp [limitReached, Nat.pos_iff_ne_zero.mp hN]

/-- Invariant behind the limit semantics: `count` is one more than the number
of download attempts so far, failed attempts included. -/
theorem download_all_go_limit_bound (cfg : DLConfig) (N : Nat)
    (hlim : cfg.limit = some N) (hN : 0 < N) :
    ∀ (urls : List String) (count : Nat) (b : Bool) (st : DLState),
      count = st.attempted.length + 1 → st.attempted.length < N →
      (download_all_go cfg urls count b st).attempted.length ≤ N
      ∧ ((download_all_go cfg urls count b st).attempted.length < N →
          ∀ u ∈ urls, u ∈ (download_all_go cfg urls count b st).attempted
            ∨ u ∈ (download_all_go cfg urls count b st).skipped) := by
  intro urls
  induction urls with
  | nil =>
    intro count b st hc hlt
    rw [download_all_go]
    exact ⟨Nat.le_of_lt hlt, by simp⟩
  | cons url rest ih =>
    intro count b st hc hlt
    rw [download_all_go]
    split
    · dsimp only
      split
      all_goals
        refine ⟨(ih count false _ (by exact hc) (by exact hlt)).1, fun hlen u hu => ?_⟩
      all_goals
        rcases List.mem_cons.mp hu with rfl | hu2
      · exact Or.inr (download_all_go_mem_skipped cfg rest count false _ u
          (List.mem_append_right _ (List.mem_cons_self u [])))
      · exact (ih count false _ (by exact hc) (by exact hlt)).2 hlen u hu2
      · exact Or.inr (download_all_go_mem_skipped cfg rest count false _ u
          (List.mem_append_right _ (List.mem_cons_self u [])))
      · exact (ih count false _ (by exact hc) (by exact hlt)).2 hlen u hu2
    · dsimp only
      split
      · rename_i hstop
        rw [hlim] at hstop
        have hgt : count + 1 > N := (limitReached_some N (count + 1) hN).mp hstop
        split
        all_goals
          refine ⟨by simp; omega, fun hcontra u hu => absurd hcontra (by simp; omega)⟩
      · rename_i hgo
        rw [hlim] at hgo
        have hle : count + 1 ≤ N := by
          by_contra hcon
          exact hgo ((limitReached_some N (count + 1) hN).mpr (by omega))
        split
        all_goals {
          refine ⟨(ih (count + 1) false _ (by simp; omega) (by simp; omega)).1,
            fun hlen u hu => ?_⟩
          rcases List.mem_cons.mp hu with rfl | hu2
          · exact Or.inl (download_all_go_mem_attempted cfg rest (count + 1) false _ u
              (List.mem_append_right _ (List.mem_cons_self u [])))
          · exact (ih (count + 1) false _ (by simp; omega) (by simp; omega)).2 hlen u hu2 }

/-- C6 amended: with `limit = N`, `N > 0`, the run performs at most `N`
download attempts — a failed transfer consumes the limit exactly like a
successful download — and whenever it performed fewer than `N` attempts it
exhausted the whole listing, every listed image having been either attempted
or skipped; marker-skipped images never count toward the limit. -/
theorem download_limit_attempts (cfg : DLConfig) (N : Nat) (images : List String)
    (hlim : cfg.limit = some N) (hN : 0 < N) (fs markers : FS) :
    (download_all_images cfg images fs markers).attempted.length ≤ N
    ∧ ((download_all_images cfg images fs markers).attempted.length < N →
        ∀ u ∈ images, u ∈ (download_all_images cfg images fs markers).attempted
          ∨ u ∈ (download_all_images cfg images fs markers).skipped) := by
  unfold download_all_images
  exact download_all_go_limit_bound cfg N hlim hN images 1 true _ rfl (by simpa using hN)

/-- C6 witness: the limit bound evaluated on the concrete limit-1 failing run. -/
theorem download_limit_attempts_witness :
    (0 : Nat) < 1
    ∧ (download_all_images cfgLimitFail imgs2 fsEmpty fsEmpty).attempted.length ≤ 1 :=
  ⟨Nat.zero_lt_one,
   (download_limit_attempts cfgLimitFail 1 imgs2 rfl Nat.zero_lt_one fsEmpty fsEmpty).1⟩

/-- The cascade list has one job per resolution. -/
theorem chainJobs_length (tmpdir fn : String) :
    ∀ (rs : List String) (cur : String), (chainJobs tmpdir fn cur rs).length = rs.length := by
  intro rs
  induction rs with
  | nil => intro cur; rfl
  | cons r rest ih => intro cur; simp [chainJobs, ih]

/-- The first cascade job reads the start file. -/
theorem chainJobs_source0 (tmpdir fn : String) :
    ∀ (rs : List String) (cur : String) (h0 : 0 < (chainJobs tmpdir fn cur rs).length),
      ((chainJobs tmpdir fn cur rs).get ⟨0, h0⟩).source_file = cur := by
  intro rs cur h0
  cases rs with
  | nil => simp [chainJobs] at h0
  | cons r rest => rfl

/-- Every later cascade job reads the previous job's temp target. -/
theorem chainJobs_chain (tmpdir fn : String) :
    ∀ (rs : List String) (cur : String) (i : Nat)
      (hi : i + 1 < (chainJobs tmpdir fn cur rs).length),
      ((chainJobs tmpdir fn cur rs).get ⟨i + 1, hi⟩).source_file
        = ((chainJobs tmpdir fn cur rs).get ⟨i, Nat.lt_of_succ_lt hi⟩).tmp_target_file := by
  intro rs
  induction rs with
  | nil => intro cur i hi; simp [chainJobs] at hi
  | cons r rest ih =>
    intro cur i hi
    cases i with
    | zero =>
      have hlen : 0 < (chainJobs tmpdir fn (tmpdir ++ "/" ++ r ++ "-" ++ fn) rest).length := by
        simpa [chainJobs] using hi
      simpa [chainJobs] using chainJobs_source0 tmpdir fn rest _ hlen
    | succ n =>
      have hi2 : n + 1 < (chainJobs tmpdir fn (tmpdir ++ "/" ++ r ++ "-" ++ fn) rest).length := by
        simpa [chainJobs] using hi
      simpa [chainJobs] using ih _ n hi2

/-- Building the ordered dict over fresh, pairwise-distinct keys appends one
entry per resolution, keyed by it, with the cascading source threading. -/
theorem buildPlan_eq_chain (tmpdir fn : String) :
    ∀ (rs : List String) (acc : List (String × ResizeJob)) (cur : String),
      rs.Nodup → (∀ r ∈ rs, ∀ p ∈ acc, p.1 ≠ r) →
      buildPlan tmpdir fn acc cur rs
        = acc ++ (chainJobs tmpdir fn cur rs).map (fun j => (j.resolution, j)) := by
  intro rs
  induction rs with
  | nil => intro acc cur _ _; simp [buildPlan, chainJobs]
  | cons r rest ih =>
    intro acc cur hnd hfresh
    rw [buildPlan, chainJobs]
    have hnotin : acc.any (fun p => decide (p.1 = r)) = false := by
      rw [List.any_eq_false]
      intro p hp
      simpa using hfresh r (List.mem_cons_self _ _) p hp
    rw [odInsert, hnotin]
    simp only [Bool.false_eq_true, if_false]
    rw [ih (acc ++ [(r, (⟨cur, tmpdir ++ "/" ++ r ++ "-" ++ fn, r⟩ : ResizeJob))])
      (tmpdir ++ "/" ++ r ++ "-" ++ fn) (List.nodup_cons.mp hnd).2 ?_]
    · simp
    · intro r2 hr2 p hp
      rcases List.mem_append.mp hp with hacc | hone
      · exact hfresh r2 (List.mem_cons_of_mem _ hr2) p hacc
      · have hp1 : p.1 = r := by
          rcases List.mem_singleton.mp hone with rfl
          rfl
        rw [hp1]
        intro heq
        exact (List.nodup_cons.mp hnd).1 (heq ▸ hr2)

/-- The code-point comparison is irreflexive. -/
theorem charListLt_irrefl : ∀ cs : List Char, charListLt cs cs = false := by
  intro cs
  induction cs with
  | nil => rfl
  | cons c rest ih => simp [charListLt, lt_self_iff_false, ih]

/-- C4: cascade ancestry.  For every strictly descending-sorted resolution
list, the job list `resize_images` executes has one job per resolution, the
first job resizes from the full-resolution original, and every subsequent job
resizes from the output file of the immediately preceding (next larger) size,
never from the original. -/
theorem cascade_ancestry (tmpdir source_file source_filename : String)
    (resolutions : List String)
    (hsorted : List.Sorted (fun a b : String => charListLt b.data a.data = true) resolutions) :
    (resizePlan tmpdir source_file source_filename resolutions).length = resolutions.length
    ∧ (∀ h0 : 0 < (resizePlan tmpdir source_file source_filename resolutions).length,
        ((resizePlan tmpdir source_file source_filename resolutions).get
          ⟨0, h0⟩).source_file = source_file)
    ∧ (∀ (i : Nat) (hi : i + 1 < (resizePlan tmpdir source_file source_filename
          resolutions).length),
        ((resizePlan tmpdir source_file source_filename resolutions).get
            ⟨i + 1, hi⟩).source_file
          = ((resizePlan tmpdir source_file source_filename resolutions).get
              ⟨i, Nat.lt_of_succ_lt hi⟩).tmp_target_file) := by
  have hnd : resolutions.Nodup := by
    refine hsorted.imp ?_
    intro a b hab heq
    rw [heq, charListLt_irrefl] at hab
    exact Bool.false_ne_true hab
  have hss : sortedDesc resolutions = resolutions :=
    List.Sorted.insertionSort_eq hsorted
  have hplan : resizePlan tmpdir source_file source_filename resolutions
      = chainJobs tmpdir source_filename source_file resolutions := by
    unfold resizePlan
    rw [hss, buildPlan_eq_chain tmpdir source_filename resolutions [] source_file hnd
      (by simp)]
    simp [List.map_map, Function.comp_def]
  rw [hplan]
  exact ⟨chainJobs_length tmpdir source_filename resolutions source_file,
    chainJobs_source0 tmpdir source_filename resolutions source_file,
    fun i hi => chainJobs_chain tmpdir source_filename resolutions source_file i hi⟩

/-- C4 witness: the spec's three-size cascade; the second job reads the first
job's 640x480 output, not the original. -/
theorem cascade_ancestry_witness :
    ((resizePlan "/tmp/work" "/data/raw-photos/G0010001.JPG" "G0010001.JPG"
        ["640x480", "320x240", "160x120"]).length = 3)
    ∧ (((resizePlan "/tmp/work" "/data/raw-photos/G0010001.JPG" "G0010001.JPG"
          ["640x480", "320x240", "160x120"]).get ⟨1, by decide⟩).source_file
        = ((resizePlan "/tmp/work" "/data/raw-photos/G0010001.JPG" "G0010001.JPG"
          ["640x480", "320x240", "160x120"]).get ⟨0, by decide⟩).tmp_target_file) := by
  have h := cascade_ancestry "/tmp/work" "/data/raw-photos/G0010001.JPG" "G0010001.JPG"
    ["640x480", "320x240", "160x120"] (by decide)
  exact ⟨h.1.trans rfl, h.2.2 0 (by decide)⟩

/-- C5: placement idempotence.  With `skip_existing` set and the canonical
`original` destination already present, `process_image` only logs: no copy,
move, resize, subprocess, or directory creation happens. -/
theorem placement_skip_existing_noop (md5fn : String → String)
    (tmpdir source_file target_dir source_filename : String) (copy resize dryrun : Bool)
    (exists_at : String → Bool) (shot_at : DateTime)
    (hex : exists_at (target_dir ++ "/" ++ "original" ++ "/"
      ++ generate_relative_image_path md5fn source_file source_filename shot_at "original"
          dryrun) = true) :
    (process_image md5fn tmpdir source_file target_dir copy resize source_filename dryrun true
        exists_at shot_at).all FSEvent.isEcho = true := by
  unfold process_image
  simp [hex, FSEvent.isEcho]

/-- C5 witness: a concrete re-run against an existing destination. -/
theorem placement_skip_existing_noop_witness :
    ((fun _ : String => true) ("/data/processed" ++ "/" ++ "original" ++ "/"
        ++ generate_relative_image_path (fun _ => "d41d8cd9") "/data/raw-photos/G0010001.JPG"
            "G0010001.JPG" ⟨2023, 5, 1, 10, 0, 0⟩ "original" false) = true)
    ∧ (process_image (fun _ => "d41d8cd9") "/tmp/work" "/data/raw-photos/G0010001.JPG"
        "/data/processed" false true "G0010001.JPG" false true (fun _ => true)
        ⟨2023, 5, 1, 10, 0, 0⟩).all FSEvent.isEcho = true :=
  ⟨rfl,
   placement_skip_existing_noop (fun _ => "d41d8cd9") "/tmp/work" "/data/raw-photos/G0010001.JPG"
     "/data/processed" "G0010001.JPG" false true false (fun _ => true) ⟨2023, 5, 1, 10, 0, 0⟩
     rfl⟩

/-- C7: reconciler count short-circuit.  Equal counts of valid images in the
source day-directory and the destination `original/{day}/` mean no
`process_image` call is made, regardless of the files' names or contents. -/
theorem reconcile_count_short_circuit (src dst : List DirEntry)
    (h : (src.filter is_image).length = (dst.filter is_image).length) :
    reprocess_daydir (some src) (some dst) = [] := by
  unfold reprocess_daydir
  simp [h]

/-- C7 witness: one old-format source image against one differently-named
new-format destination image — counts match, nothing is processed. -/
theorem reconcile_count_short_circuit_witness :
    ((([⟨"2016-05-03_00-02-59_A_G0070289.JPG", true⟩] : List DirEntry).filter is_image).length
      = (([⟨"2016-05-03_00-02-59.A_G0070111.original.6c22.JPG", true⟩] : List DirEntry).filter
          is_image).length)
    ∧ reprocess_daydir (some [⟨"2016-05-03_00-02-59_A_G0070289.JPG", true⟩])
        (some [⟨"2016-05-03_00-02-59.A_G0070111.original.6c22.JPG", true⟩]) = [] :=
  ⟨by decide, reconcile_count_short_circuit _ _ (by decide)⟩

/-- A dry-run `resize_image` only logs. -/
theorem resize_image_dryrun_echo (s t r : String) (optimise : Bool) :
    (resize_image s t r optimise true).all FSEvent.isEcho = true := by
  cases optimise <;> simp [resize_image, FSEvent.isEcho]

/-- A dry-run resize loop only logs. -/
theorem resizeLoopEvents_dryrun_echo (optimise : Bool) (plan : List ResizeJob) :
    (resizeLoopEvents optimise true plan).all FSEvent.isEcho = true := by
  induction plan with
  | nil => rfl
  | cons j rest ih =>
    simp only [resizeLoopEvents, List.map_cons, List.flatten_cons, List.all_append] at ih ⊢
    simp [ih, resize_image_dryrun_echo]

/-- A dry-run move loop only logs. -/
theorem moveLoopEvents_dryrun_echo (md5fn : String → String)
    (target_dir source_filename : String) (shot_at : DateTime) (plan : List ResizeJob) :
    (moveLoopEvents md5fn target_dir source_filename shot_at true plan).all
      FSEvent.isEcho = true := by
  induction plan with
  | nil => rfl
  | cons j rest ih =>
    simp only [moveLoopEvents, List.map_cons, List.flatten_cons, List.all_append] at ih ⊢
    simp [ih, FSEvent.isEcho]

/-- C8 counterexample: a concrete dry-run invocation of the resize cascade
still creates (and then removes) a temporary working directory — its trace is
not pure logging, so dry-run does have a filesystem side effect. -/
theorem resize_dryrun_counterexample :
    FSEvent.mkdtemp "/tmp/work" ∈ resize_images (fun _ => "h") "/tmp/work"
        "/data/raw-photos/G0010001.JPG" "G0010001.JPG" "/data/processed"
        ["640x480", "320x240", "160x120"] ⟨2023, 5, 1, 10, 0, 0⟩ true true
    ∧ (resize_images (fun _ => "h") "/tmp/work" "/data/raw-photos/G0010001.JPG" "G0010001.JPG"
        "/data/processed" ["640x480", "320x240", "160x120"] ⟨2023, 5, 1, 10, 0, 0⟩ true
        true).all FSEvent.isEcho = false := by
  exact ⟨by decide, rfl⟩

/-- C8 amended: in dry-run mode the resize cascade launches no subprocess and
touches the filesystem only through the scoped temporary working directory —
every event in its trace is a log line apart from the single leading `mkdtemp`
and the single trailing `rmtree` of that directory, which cancel out. -/
theorem resize_dryrun_only_tempdir (md5fn : String → String)
    (tmpdir source_file source_filename target_dir : String)
    (resolutions : List String) (shot_at : DateTime) (optimise : Bool) :
    ((resize_images md5fn tmpdir source_file source_filename target_dir resolutions shot_at
        optimise true).all
      (fun e => e.isEcho || e == FSEvent.mkdtemp tmpdir || e == FSEvent.rmtree tmpdir) = true)
    ∧ (resize_images md5fn tmpdir source_file source_filename target_dir resolutions shot_at
        optimise true).head? = some (FSEvent.mkdtemp tmpdir)
    ∧ (resize_images md5fn tmpdir source_file source_filename target_dir resolutions shot_at
        optimise true).getLast? = some (FSEvent.rmtree tmpdir) := by
  refine ⟨?_, rfl, ?_⟩
  · rw [List.all_eq_true]
    intro e he
    unfold resize_images at he
    simp only [List.mem_append, List.mem_cons, List.mem_singleton, List.not_mem_nil,
      or_false] at he
    rcases he with ((hm | hres) | hmove) | hr
    · simp [hm]
    · have := List.all_eq_true.mp (resizeLoopEvents_dryrun_echo optimise _) e hres
      simp [this]
    · have := List.all_eq_true.mp (moveLoopEvents_dryrun_echo md5fn target_dir source_filename
        shot_at _) e hmove
      simp [this]
    · simp [hr]
  · unfold resize_images
    exact List.getLast?_concat _

/-- C9: poll-loop fault tolerance and hard-exit.  Without `hard_exit` the loop
never terminates (no `exit(1)` in any observed trace) and processes every
iteration — a raising stage is caught, logged, followed by the fixed sleep,
and the loop goes on; with `hard_exit` the loop ends the process after exactly
one iteration (also after one failed connectivity check), the pass ending in
`exit(1)`. -/
theorem poll_loop_fault_tolerance_and_hard_exit :
    (∀ inputs : List IterInput, LoopEvent.exitProcess ∉ loopRun false inputs)
    ∧ (∀ (inp : IterInput) (rest : List IterInput),
        loopRun false (inp :: rest) = (loopStep false inp).1 ++ loopRun false rest)
    ∧ (∀ inp : IterInput, inp.connected = true → inp.stageRaises = true →
        (loopStep false inp).1
          = [LoopEvent.stageRun true, LoopEvent.errorLog, LoopEvent.sleepStage])
    ∧ (∀ (inp : IterInput) (rest : List IterInput),
        loopRun true (inp :: rest) = (loopStep true inp).1)
    ∧ (∀ inp : IterInput, ((loopStep true inp).1).getLast? = some LoopEvent.exitProcess) := by
  refine ⟨?_, ?_, ?_, ?_, ?_⟩
  · intro inputs
    induction inputs with
    | nil => simp [loopRun]
    | cons inp rest ih =>
      rcases inp with ⟨c, r⟩
      cases c <;> cases r <;> simp [loopRun, loopStep, ih]
  · intro inp rest
    rcases inp with ⟨c, r⟩
    cases c <;> simp [loopRun, loopStep]
  · intro inp hc hr
    rcases inp with ⟨c, r⟩
    simp only at hc hr
    subst hc
    subst hr
    rfl
  · intro inp rest
    rcases inp with ⟨c, r⟩
    cases c <;> simp [loopRun, loopStep]
  · intro inp
    rcases inp with ⟨c, r⟩
    cases c <;> cases r <;> rfl

/-- C9 witness: a raising iteration followed by a gated one under no
hard-exit, and a hard-exit run that stops after its first iteration. -/
theorem poll_loop_witness :
    (LoopEvent.exitProcess ∉ loopRun false [⟨true, true⟩, ⟨false, false⟩])
    ∧ (loopStep false ⟨true, true⟩).1
        = [LoopEvent.stageRun true, LoopEvent.errorLog, LoopEvent.sleepStage]
    ∧ loopRun true [⟨true, false⟩, ⟨true, false⟩] = (loopStep true ⟨true, false⟩).1 :=
  ⟨poll_loop_fault_tolerance_and_hard_exit.1 _,
   poll_loop_fault_tolerance_and_hard_exit.2.2.1 ⟨true, true⟩ rfl rfl,
   poll_loop_fault_tolerance_and_hard_exit.2.2.2.1 _ _⟩

end Goprodl
